import Mathlib

/-!
Verification development for the tx2-ecs core: a shallow embedding of the
reactive signal graph (src/reactive/signal.ts), the system scheduler
(src/core/system.ts), the world tick loop and entity table
(src/core/world.ts, src/core/entity.ts), and the component store / query
engine (src/core/component.ts, src/core/query.ts), together with theorems
settling the frozen specification claims C1-C10.

JS `Set` objects are modelled as insertion-ordered duplicate-free lists,
JS `Map` objects as insertion-ordered association lists with replace-on-set
semantics, JS numbers relevant to the claims as integers plus an explicit
NaN constructor (`Object.is` equality becomes structural equality), and the
mutually recursive reactive evaluator is driven by an explicit fuel
parameter (`none` = the run did not complete: an exception or exhausted
fuel).
-/

namespace TX2

/-- JS `Set.add`: append iff not already present (insertion order kept). -/
def addUnique (l : List Nat) (x : Nat) : List Nat :=
  if x ∈ l then l else l ++ [x]

/-- JS number values as used by the claims: integers plus NaN.
`Object.is` on these is structural equality (NaN equals NaN). -/
inductive Value where
  | num : Int → Value
  | nan : Value
deriving DecidableEq, Repr

/-- `Object.is` on modelled values. -/
def objectIs (a b : Value) : Bool := decide (a = b)

/-- JS `+` restricted to the modelled values: NaN propagates. -/
def vadd : Value → Value → Value
  | Value.num a, Value.num b => Value.num (a + b)
  | _, _ => Value.nan

/-- JS `*` restricted to the modelled values: NaN propagates. -/
def vmul : Value → Value → Value
  | Value.num a, Value.num b => Value.num (a * b)
  | _, _ => Value.nan

/-- Bodies of computeds and effects: reads of other nodes plus arithmetic,
mirroring the concrete derivations used in the spec scenarios. -/
inductive Expr where
  | lit : Int → Expr
  | read : Nat → Expr
  | add : Expr → Expr → Expr
  | mul : Expr → Expr → Expr
deriving DecidableEq, Repr

/-- Kind-specific per-node state: `sig value`, `comp body value computedFlag`,
`eff body runCount disposedFlag` (runCount counts completed body runs). -/
inductive NodeKind where
  | sig : Value → NodeKind
  | comp : Expr → Option Value → Bool → NodeKind
  | eff : Expr → Nat → Bool → NodeKind
deriving DecidableEq, Repr

/-- One `ReactiveNode`: kind data plus `subscribers`, `dependencies`, `stale`. -/
structure Node where
  kind : NodeKind
  subs : List Nat
  deps : List Nat
  stale : Bool
deriving DecidableEq, Repr

instance : Inhabited Node := ⟨⟨NodeKind.sig (Value.num 0), [], [], false⟩⟩

/-- Global reactive state: the node table, the module-level `currentObserver`,
`batchDepth` and `batchedSignals`. -/
structure RState where
  nodes : Nat → Node
  observer : Option Nat
  batchDepth : Nat
  batched : List Nat

def getN (st : RState) (i : Nat) : Node := st.nodes i

def setN (st : RState) (i : Nat) (n : Node) : RState :=
  { st with nodes := fun j => if j = i then n else st.nodes j }

def modifyN (st : RState) (i : Nat) (g : Node → Node) : RState :=
  setN st i (g (getN st i))

/-- `ReactiveNode.track`: while an observer distinct from `i` is active,
record the bidirectional edge. -/
def track (st : RState) (i : Nat) : RState :=
  match st.observer with
  | some o =>
      if o ≠ i then
        let st1 := modifyN st i fun n => { n with subs := addUnique n.subs o }
        modifyN st1 o fun n => { n with deps := addUnique n.deps i }
      else st
  | none => st

/-- The loop of `clearDependencies`: remove `i` from each dependency's
subscriber set. -/
def clearFold (i : Nat) : List Nat → RState → RState
  | [], st => st
  | d :: rest, st =>
      clearFold i rest (modifyN st d fun n => { n with subs := n.subs.erase i })

/-- `ReactiveNode.clearDependencies`. -/
def clearDeps (st : RState) (i : Nat) : RState :=
  modifyN (clearFold i (getN st i).deps st) i fun n => { n with deps := [] }

/-- First pass of `notify`: mark each snapshotted subscriber stale if it is
still subscribed. -/
def stalePass (i : Nat) : List Nat → RState → RState
  | [], st => st
  | s :: rest, st =>
      stalePass i rest
        (if s ∈ (getN st i).subs then modifyN st s (fun n => { n with stale := true }) else st)

def setCompVal (k : NodeKind) (v : Value) : NodeKind :=
  match k with
  | NodeKind.comp e _ _ => NodeKind.comp e (some v) true
  | k => k

def bumpEff (k : NodeKind) : NodeKind :=
  match k with
  | NodeKind.eff e r d => NodeKind.eff e (r + 1) d
  | k => k

def dummyV : Value := Value.num 0

/-- Commands of the mutually recursive part of the reactive runtime:
expression evaluation, `get`, `recompute`, `Effect.run`, `notify` (and its
second pass over a snapshot), `update`, the flush update loop, `Signal.set`. -/
inductive RCmd where
  | cEval : Expr → RCmd
  | cGet : Nat → RCmd
  | cRecompute : Nat → RCmd
  | cRunEff : Nat → RCmd
  | cNotify : Nat → RCmd
  | cNotify2 : Nat → List Nat → RCmd
  | cUpdate : Nat → RCmd
  | cUpdList : List Nat → RCmd
  | cSet : Nat → Value → RCmd

/-- The reactive evaluator, fuelled. Mirrors signal.ts line by line;
`none` means the run did not complete (a thrown error or exhausted fuel). -/
def exec : Nat → RCmd → RState → Option (Value × RState)
  | 0, _, _ => none
  | _ + 1, RCmd.cEval (Expr.lit n), st => some (Value.num n, st)
  | f + 1, RCmd.cEval (Expr.read i), st => exec f (RCmd.cGet i) st
  | f + 1, RCmd.cEval (Expr.add a b), st =>
      match exec f (RCmd.cEval a) st with
      | none => none
      | some (va, st1) =>
          match exec f (RCmd.cEval b) st1 with
          | none => none
          | some (vb, st2) => some (vadd va vb, st2)
  | f + 1, RCmd.cEval (Expr.mul a b), st =>
      match exec f (RCmd.cEval a) st with
      | none => none
      | some (va, st1) =>
          match exec f (RCmd.cEval b) st1 with
          | none => none
          | some (vb, st2) => some (vmul va vb, st2)
  | f + 1, RCmd.cGet i, st =>
      match (getN st i).kind with
      | NodeKind.sig v => some (v, track st i)
      | NodeKind.comp _ _ cflag =>
          match (if (getN st i).stale || !cflag then exec f (RCmd.cRecompute i) st
                 else some (dummyV, st)) with
          | none => none
          | some (_, st1) =>
              let st2 := track st1 i
              match (getN st2 i).kind with
              | NodeKind.comp _ (some v) _ => some (v, st2)
              | _ => none
      | NodeKind.eff _ _ _ => none
  | f + 1, RCmd.cRecompute i, st =>
      match (getN st i).kind with
      | NodeKind.comp e _ _ =>
          let st1 := clearDeps st i
          let prev := st1.observer
          let st2 := { st1 with observer := some i }
          match exec f (RCmd.cEval e) st2 with
          | none => none
          | some (v, st3) =>
              let st4 := modifyN st3 i fun n => { n with kind := setCompVal n.kind v, stale := false }
              some (dummyV, { st4 with observer := prev })
      | _ => none
  | f + 1, RCmd.cRunEff i, st =>
      match (getN st i).kind with
      | NodeKind.eff e _ d =>
          if d then some (dummyV, st)
          else
            let st1 := clearDeps st i
            let prev := st1.observer
            let st2 := { st1 with observer := some i }
            match exec f (RCmd.cEval e) st2 with
            | none => none
            | some (_, st3) =>
                let st4 := modifyN st3 i fun n => { n with kind := bumpEff n.kind, stale := false }
                some (dummyV, { st4 with observer := prev })
      | _ => none
  | f + 1, RCmd.cNotify i, st =>
      let snap := (getN st i).subs
      exec f (RCmd.cNotify2 i snap) (stalePass i snap st)
  | _ + 1, RCmd.cNotify2 _ [], st => some (dummyV, st)
  | f + 1, RCmd.cNotify2 i (s :: rest), st =>
      if s ∈ (getN st i).subs then
        match exec f (RCmd.cUpdate s) st with
        | none => none
        | some (_, st1) => exec f (RCmd.cNotify2 i rest) st1
      else exec f (RCmd.cNotify2 i rest) st
  | f + 1, RCmd.cUpdate i, st =>
      match (getN st i).kind with
      | NodeKind.sig _ => some (dummyV, st)
      | NodeKind.comp _ _ _ =>
          if (getN st i).stale then
            match exec f (RCmd.cRecompute i) st with
            | none => none
            | some (_, st1) => exec f (RCmd.cNotify i) st1
          else some (dummyV, st)
      | NodeKind.eff _ _ d =>
          if !(getN st i).stale || d then some (dummyV, st)
          else exec f (RCmd.cRunEff i) st
  | _ + 1, RCmd.cUpdList [], st => some (dummyV, st)
  | f + 1, RCmd.cUpdList (s :: rest), st =>
      match exec f (RCmd.cUpdate s) st with
      | none => none
      | some (_, st1) => exec f (RCmd.cUpdList rest) st1
  | f + 1, RCmd.cSet i v, st =>
      match (getN st i).kind with
      | NodeKind.sig w =>
          if objectIs w v then some (dummyV, st)
          else
            let st1 := modifyN st i fun n => { n with kind := NodeKind.sig v, stale := false }
            if st1.batchDepth > 0 then some (dummyV, { st1 with batched := addUnique st1.batched i })
            else exec f (RCmd.cNotify i) st1
      | _ => none

/-- Inner loop of `flushBatchedUpdates`: mark every subscriber of one batched
signal stale and add it to the pending set. -/
def collectSubs : List Nat → RState → List Nat → (RState × List Nat)
  | [], st, p => (st, p)
  | sub :: rest, st, p =>
      collectSubs rest (modifyN st sub fun n => { n with stale := true }) (addUnique p sub)

/-- Outer loop of `flushBatchedUpdates` over all batched signals. -/
def collectPending : List Nat → RState → List Nat → (RState × List Nat)
  | [], st, p => (st, p)
  | sg :: rest, st, p =>
      let r := collectSubs (getN st sg).subs st p
      collectPending rest r.1 r.2

/-- `flushBatchedUpdates`. -/
def flushB (f : Nat) (st : RState) : Option RState :=
  if st.batched.isEmpty then some st
  else
    let r := collectPending st.batched st []
    let st2 := { r.1 with batched := ([] : List Nat) }
    (exec f (RCmd.cUpdList r.2) st2).map Prod.snd

/-- Top-level operations on the reactive graph (dispose is modelled
separately, below): `Signal.set` / `get`, effect construction (the
constructor's initial run), and `batch` over a list of operations. -/
inductive TopOp where
  | tset : Nat → Value → TopOp
  | tget : Nat → TopOp
  | teffInit : Nat → TopOp
  | tbatch : List TopOp → TopOp

mutual

/-- Run one top-level reactive operation. -/
def runTop : Nat → TopOp → RState → Option RState
  | 0, _, _ => none
  | f + 1, TopOp.tset i v, st => (exec f (RCmd.cSet i v) st).map Prod.snd
  | f + 1, TopOp.tget i, st => (exec f (RCmd.cGet i) st).map Prod.snd
  | f + 1, TopOp.teffInit i, st => (exec f (RCmd.cRunEff i) st).map Prod.snd
  | f + 1, TopOp.tbatch ops, st =>
      match runTops f ops { st with batchDepth := st.batchDepth + 1 } with
      | none => none
      | some st2 =>
          let st3 := { st2 with batchDepth := st2.batchDepth - 1 }
          if st3.batchDepth = 0 then flushB f st3 else some st3

/-- Run a list of top-level reactive operations in order. -/
def runTops : Nat → List TopOp → RState → Option RState
  | 0, _, _ => none
  | _ + 1, [], st => some st
  | f + 1, op :: rest, st =>
      match runTop f op st with
      | none => none
      | some st1 => runTops f rest st1

end

/-- `ReactiveNode.dispose`: clear dependencies, then clear the subscriber
set (without removing the node from its subscribers' dependency sets). -/
def disposeBase (st : RState) (i : Nat) : RState :=
  modifyN (clearDeps st i) i fun n => { n with subs := ([] : List Nat) }

/-- `dispose` dispatched on the node's dynamic class (`Signal` inherits the
base, `Computed` resets its flags first, `Effect` is idempotent). -/
def disposeNode (st : RState) (i : Nat) : RState :=
  match (getN st i).kind with
  | NodeKind.sig _ => disposeBase st i
  | NodeKind.comp e v _ =>
      disposeBase (modifyN st i fun n => { n with kind := NodeKind.comp e v false, stale := true }) i
  | NodeKind.eff e r d =>
      if d then st
      else disposeBase (modifyN st i fun n => { n with kind := NodeKind.eff e r true }) i

/-- Observed run count of an effect node. -/
def effRunsO (st : RState) (i : Nat) : Option Nat :=
  match (getN st i).kind with
  | NodeKind.eff _ r _ => some r
  | _ => none

/-- Current value of a signal node. -/
def sigValO (st : RState) (i : Nat) : Option Value :=
  match (getN st i).kind with
  | NodeKind.sig v => some v
  | _ => none

/-- The dependency/subscriber symmetry relation of spec section 3: whenever
A's dependency set contains B, B's subscriber set contains A. -/
def Sym (st : RState) : Prop :=
  ∀ a b : Nat, b ∈ (getN st a).deps → a ∈ (getN st b).subs

/-! Concrete reactive scenarios used by the claims. -/

/-- Fresh node with the given kind (empty edge sets, not stale). -/
def mkNode (k : NodeKind) : Node := ⟨k, [], [], false⟩

/-- Diamond of the glitch-free-batching scenario: node 0 `s = signal 1`,
node 1 `b = computed (s * 2)`, node 2 `c = computed (s + 1)`,
node 3 `d = computed (b + c)`, node 4 an effect reading `d`. -/
def diamond0 : RState :=
  { nodes := fun j =>
      if j = 0 then mkNode (NodeKind.sig (Value.num 1))
      else if j = 1 then mkNode (NodeKind.comp (Expr.mul (Expr.read 0) (Expr.lit 2)) none false)
      else if j = 2 then mkNode (NodeKind.comp (Expr.add (Expr.read 0) (Expr.lit 1)) none false)
      else if j = 3 then mkNode (NodeKind.comp (Expr.add (Expr.read 1) (Expr.read 2)) none false)
      else if j = 4 then mkNode (NodeKind.eff (Expr.read 3) 0 false)
      else mkNode (NodeKind.sig (Value.num 0)),
    observer := none, batchDepth := 0, batched := [] }

/-- Diamond state after the effect's constructor run. -/
def diamondInit : Option RState := runTop 64 (TopOp.teffInit 4) diamond0

/-- Diamond state inside `batch(() => s.set(2))`, after the body has run but
before the batch exits (batch depth still 1). -/
def diamondMid : Option RState :=
  diamondInit.bind fun st =>
    runTops 64 [TopOp.tset 0 (Value.num 2)] { st with batchDepth := st.batchDepth + 1 }

/-- Diamond state after `batch(() => s.set(2))` completes. -/
def diamondFinal : Option RState :=
  diamondInit.bind fun st => runTop 64 (TopOp.tbatch [TopOp.tset 0 (Value.num 2)]) st

/-- Diamond state after the same write wrapped in two nested batches. -/
def diamondNested : Option RState :=
  diamondInit.bind fun st =>
    runTop 64 (TopOp.tbatch [TopOp.tbatch [TopOp.tset 0 (Value.num 2)]]) st

/-- Two-node graph of the write-idempotence scenario: node 0 `s = signal 5`,
node 1 an effect reading `s`. -/
def idem0 : RState :=
  { nodes := fun j =>
      if j = 0 then mkNode (NodeKind.sig (Value.num 5))
      else if j = 1 then mkNode (NodeKind.eff (Expr.read 0) 0 false)
      else mkNode (NodeKind.sig (Value.num 0)),
    observer := none, batchDepth := 0, batched := [] }

/-- Idempotence scenario after the effect's constructor run. -/
def idemInit : Option RState := runTop 32 (TopOp.teffInit 1) idem0

/-- Idempotence scenario after `s.set(5)` (a no-op write). -/
def idemSame : Option RState := idemInit.bind (runTop 32 (TopOp.tset 0 (Value.num 5)))

/-- Idempotence scenario after `s.set(5); s.set(NaN)`. -/
def idemNan1 : Option RState := idemSame.bind (runTop 32 (TopOp.tset 0 Value.nan))

/-- Idempotence scenario after `s.set(5); s.set(NaN); s.set(NaN)`. -/
def idemNan2 : Option RState := idemNan1.bind (runTop 32 (TopOp.tset 0 Value.nan))

/-- State of the idempotence graph after disposing the signal (node 0) while
the effect (node 1) still subscribes to it. -/
def disposeCex : Option RState := idemInit.map fun st => disposeNode st 0

/-! The system scheduler: `SystemScheduler.topologicalSort` from
src/core/system.ts, over the systems of one phase. -/

/-- Ordering-relevant data of one `System`: id, priority, the `runAfter` and
`runBefore` id sets. -/
structure SysN where
  sid : Nat
  prio : Int
  runAfter : List Nat
  runBefore : List Nat
deriving DecidableEq, Repr

/-- The `systemMap` lookup (`new Map(systems.map(s => [s.id, s]))`: a later
duplicate id overwrites an earlier one). -/
def findSys (l : List SysN) (i : Nat) : Option SysN :=
  (l.filter (fun s => s.sid = i)).getLast?

/-- Mutable state of the depth-first visitation. -/
structure TopoSt where
  sorted : List Nat
  visited : List Nat
  visiting : List Nat
deriving DecidableEq, Repr

mutual

/-- The recursive `visit` closure; `none` models the thrown circular-dependency
error (or exhausted fuel). -/
def visitS : Nat → List SysN → SysN → TopoSt → Option TopoSt
  | 0, _, _, _ => none
  | f + 1, sysMap, s, st =>
      if s.sid ∈ st.visited then some st
      else if s.sid ∈ st.visiting then none
      else
        let st0 : TopoSt := { st with visiting := st.visiting ++ [s.sid] }
        match visitAfters f sysMap s.runAfter st0 with
        | none => none
        | some st1 =>
            if s.runBefore.any (fun beforeId =>
                match findSys sysMap beforeId with
                | some b => decide (b.sid ∉ st1.visited)
                | none => false) then
              some { st1 with visiting := st1.visiting.erase s.sid }
            else
              some { st1 with
                visiting := st1.visiting.erase s.sid,
                visited := st1.visited ++ [s.sid],
                sorted := st1.sorted ++ [s.sid] }

/-- The `for (const afterId of system.runAfter)` loop. -/
def visitAfters : Nat → List SysN → List Nat → TopoSt → Option TopoSt
  | 0, _, _, _ => none
  | _ + 1, _, [], st => some st
  | f + 1, sysMap, afterId :: rest, st =>
      match findSys sysMap afterId with
      | some afterSystem =>
          match visitS f sysMap afterSystem st with
          | none => none
          | some st1 => visitAfters f sysMap rest st1
      | none => visitAfters f sysMap rest st

end

/-- One step of a stable insertion sort by descending priority (models the
stable JS `Array.prototype.sort((a, b) => b.priority - a.priority)`). -/
def insDesc (s : SysN) : List SysN → List SysN
  | [] => [s]
  | t :: ts => if t.prio > s.prio then t :: insDesc s ts else s :: t :: ts

/-- Stable sort by descending priority. -/
def sortByPrioDesc (l : List SysN) : List SysN := l.foldr insDesc []

/-- The main loop of `topologicalSort` over the priority-sorted systems. -/
def visitAll : Nat → List SysN → List SysN → TopoSt → Option TopoSt
  | 0, _, _, _ => none
  | _ + 1, _, [], st => some st
  | f + 1, sysMap, s :: rest, st =>
      match visitS f sysMap s st with
      | none => none
      | some st1 => visitAll f sysMap rest st1

/-- `SystemScheduler.topologicalSort`, returning the ids in execution order
(`none` models the thrown circular-dependency error). -/
def topoSort (f : Nat) (systems : List SysN) : Option (List Nat) :=
  (visitAll f systems (sortByPrioDesc systems) ⟨[], [], []⟩).map TopoSt.sorted

/-! System dispatch with failure containment: `System.run` and
`SystemScheduler.executePhase` from src/core/system.ts. -/

/-- `SystemErrorStrategy`. -/
inductive StrategyM where
  | sDISABLE
  | sIGNORE
  | sRETRY
deriving DecidableEq, Repr

/-- The `SystemErrorContext` fields the handlers of the claims inspect. -/
structure ErrCtxM where
  sysId : Nat
  failures : Nat

/-- `SystemErrorHandler`: may return a strategy or nothing (`void`). -/
def HandlerM : Type := ErrCtxM → Option StrategyM

/-- Dispatch-relevant state of one `System`. `beh n = true` means the system's
function throws on its n-th invocation (counted by `runCount`). -/
structure SystemM where
  sid : Nat
  enabled : Bool
  failures : Nat
  runCount : Nat
  beh : Nat → Bool
  onErr : Option HandlerM

/-- `System.run`: returns the updated system and whether the error escaped
(no local handler: the error is rethrown to `executePhase`). -/
def sysRun (s : SystemM) : SystemM × Bool :=
  if !s.enabled then (s, false)
  else if !(s.beh s.runCount) then
    ({ s with runCount := s.runCount + 1, failures := 0 }, false)
  else
    let fails := s.failures + 1
    match s.onErr with
    | none => ({ s with runCount := s.runCount + 1, failures := fails }, true)
    | some h =>
        let strategy := (h ⟨s.sid, fails⟩).getD StrategyM.sIGNORE
        ({ s with
            runCount := s.runCount + 1,
            failures := fails,
            enabled := if strategy = StrategyM.sDISABLE then false else s.enabled }, false)

/-- One iteration of the `executePhase` loop: skip disabled systems, run the
system, and on an escaped error consult the phase-level handler. -/
def execPhaseStep (ph : Option HandlerM) (s : SystemM) : SystemM :=
  if !s.enabled then s
  else
    let r := sysRun s
    if r.2 then
      match ph with
      | some h =>
          if (h ⟨r.1.sid, r.1.failures⟩) = some StrategyM.sDISABLE then
            { r.1 with enabled := false }
          else r.1
      | none => r.1
    else r.1

/-- `SystemScheduler.executePhase` over the systems of one phase in execution
order (each iteration touches only its own system). -/
def execPhase (ph : Option HandlerM) : List SystemM → List SystemM
  | [] => []
  | s :: rest => execPhaseStep ph s :: execPhase ph rest

/-- The strategy that the error-handling chain resolves for a failing
dispatch of `s`: the local handler's answer if present, else the phase-level
handler's, with `void` defaulting to IGNORE. -/
def resolvedStrategy (ph : Option HandlerM) (s : SystemM) : StrategyM :=
  match s.onErr with
  | some h => (h ⟨s.sid, s.failures + 1⟩).getD StrategyM.sIGNORE
  | none =>
      match ph with
      | some h => (h ⟨s.sid, s.failures + 1⟩).getD StrategyM.sIGNORE
      | none => StrategyM.sIGNORE

/-- `defaultErrorHandler` from src/core/error.ts: disable after 3 consecutive
failures, otherwise ignore. -/
def defaultErrorHandlerM : HandlerM := fun ctx =>
  if ctx.failures ≥ 3 then some StrategyM.sDISABLE else some StrategyM.sIGNORE

/-! The `World.update` tick loop from src/core/world.ts: logical time,
fixed-step accumulator, pause gating. JS floating-point deltas are modelled
as rationals. -/

/-- Tick-relevant `World` state; the three counters record how often each
phase was dispatched. -/
structure WTime where
  time : ℚ
  fixedTime : ℚ
  accumulator : ℚ
  paused : Bool
  fixedCount : Nat
  updateCount : Nat
  lateCount : Nat
deriving DecidableEq, Repr

/-- The fixed-update drain loop: `k` is the remaining allowance out of
`maxFixedUpdates`; returns the state and the number of drained steps. -/
def drain (fd : ℚ) : Nat → WTime → WTime × Nat
  | 0, st => (st, 0)
  | k + 1, st =>
      if st.accumulator ≥ fd then
        let st1 := { st with
          fixedCount := st.fixedCount + 1,
          accumulator := st.accumulator - fd,
          fixedTime := st.fixedTime + fd }
        let r := drain fd k st1
        (r.1, r.2 + 1)
      else (st, 0)

/-- `World.update(deltaTime)` with config `fixedTimestep = fd`,
`maxFixedUpdates = maxF`. -/
def wUpdate (fd : ℚ) (maxF : Nat) (dt : ℚ) (st : WTime) : WTime :=
  if st.paused then st
  else
    let st1 := { st with time := st.time + dt, accumulator := st.accumulator + dt }
    let r := drain fd maxF st1
    let st3 := if r.2 ≥ maxF then { r.1 with accumulator := 0 } else r.1
    { st3 with updateCount := st3.updateCount + 1, lateCount := st3.lateCount + 1 }

/-- `World.pause`. -/
def wPause (st : WTime) : WTime := { st with paused := true }

/-- `World.resume`. -/
def wResume (st : WTime) : WTime := { st with paused := false }

/-- A freshly constructed `World`'s tick state. -/
def wInit : WTime := ⟨0, 0, 0, false, 0, 0, 0⟩

/-- The number of fixed steps drained by `update(dt)` from state `st`. -/
def drainCount (fd : ℚ) (maxF : Nat) (dt : ℚ) (st : WTime) : Nat :=
  (drain fd maxF { st with time := st.time + dt, accumulator := st.accumulator + dt }).2

/-! JS `Map` modelled as an insertion-ordered association list with
replace-on-set semantics, used by the entity table, the component store and
the query cache. -/

def alGet {α β : Type} [DecidableEq α] : List (α × β) → α → Option β
  | [], _ => none
  | (k, v) :: rest, key => if k = key then some v else alGet rest key

def alHas {α β : Type} [DecidableEq α] (l : List (α × β)) (key : α) : Bool :=
  (alGet l key).isSome

/-- `Map.set`: replace in place when the key exists, append otherwise. -/
def alSet {α β : Type} [DecidableEq α] : List (α × β) → α → β → List (α × β)
  | [], key, v => [(key, v)]
  | (k, w) :: rest, key, v =>
      if k = key then (k, v) :: rest else (k, w) :: alSet rest key v

/-- `Map.delete`. -/
def alDel {α β : Type} [DecidableEq α] : List (α × β) → α → List (α × β)
  | [], _ => []
  | (k, w) :: rest, key => if k = key then rest else (k, w) :: alDel rest key

def alKeys {α β : Type} (l : List (α × β)) : List α := l.map Prod.fst

/-- Generic insertion-ordered set `add` (for sets of strings etc.). -/
def addUniqueG {α : Type} [DecidableEq α] (l : List α) (x : α) : List α :=
  if x ∈ l then l else l ++ [x]

/-- Substring test (JS `String.prototype.includes`); strings are handled as
their character sequences to keep everything kernel-computable. -/
def segPrefixEq : List Char → List Char → Bool
  | [], _ => true
  | _ :: _, [] => false
  | a :: as, b :: bs => a = b && segPrefixEq as bs

def segAt (needle : List Char) : List Char → Bool
  | [] => segPrefixEq needle []
  | b :: bs => segPrefixEq needle (b :: bs) || segAt needle bs

def keyContains (hay : List Char) (needle : String) : Bool := segAt needle.data hay

/-! `ComponentStore` from src/core/component.ts. Component instances are
identified by a serial number; only their presence matters to the claims. -/

/-- `ComponentStore`: `components` maps entity → (component type → instance
list), `componentIndex` is the reverse index type → entity set. -/
structure CompStore where
  components : List (Nat × List (String × List Nat))
  componentIndex : List (String × List Nat)
deriving DecidableEq, Repr

def emptyStore : CompStore := ⟨[], []⟩

/-- `ComponentStore.add`: append the instance to the per-type list and index
the entity under the component type. -/
def storeAdd (st : CompStore) (entityId : Nat) (componentId : String) (inst : Nat) : CompStore :=
  let entityComponents := (alGet st.components entityId).getD []
  let existing := (alGet entityComponents componentId).getD []
  let entityComponents1 := alSet entityComponents componentId (existing ++ [inst])
  let components1 := alSet st.components entityId entityComponents1
  let index := (alGet st.componentIndex componentId).getD []
  let index1 := addUnique index entityId
  ⟨components1, alSet st.componentIndex componentId index1⟩

/-- `ComponentStore.remove`: delete the whole per-type bucket and prune the
reverse index; returns whether anything was removed. -/
def storeRemove (st : CompStore) (entityId : Nat) (componentId : String) : CompStore × Bool :=
  match alGet st.components entityId with
  | none => (st, false)
  | some entityComponents =>
      let removed := alHas entityComponents componentId
      let st1 := { st with components := alSet st.components entityId (alDel entityComponents componentId) }
      if removed then
        match alGet st1.componentIndex componentId with
        | none => (st1, true)
        | some index =>
            let index1 := index.erase entityId
            if index1.isEmpty then ({ st1 with componentIndex := alDel st1.componentIndex componentId }, true)
            else ({ st1 with componentIndex := alSet st1.componentIndex componentId index1 }, true)
      else (st1, false)

/-- `ComponentStore.has`. -/
def storeHas (st : CompStore) (entityId : Nat) (componentId : String) : Bool :=
  0 < (((alGet st.components entityId).bind (fun ec => alGet ec componentId)).getD []).length

/-- `ComponentStore.getEntitiesWithComponent`. -/
def storeEntitiesWith (st : CompStore) (componentId : String) : List Nat :=
  (alGet st.componentIndex componentId).getD []

/-- The index-pruning loop of `removeAllComponents`. -/
def pruneIndex (entityId : Nat) : List String → List (String × List Nat) → List (String × List Nat)
  | [], idx => idx
  | componentId :: rest, idx =>
      match alGet idx componentId with
      | none => pruneIndex entityId rest idx
      | some index =>
          let index1 := index.erase entityId
          if index1.isEmpty then pruneIndex entityId rest (alDel idx componentId)
          else pruneIndex entityId rest (alSet idx componentId index1)

/-- `ComponentStore.removeAllComponents`. -/
def storeRemoveAll (st : CompStore) (entityId : Nat) : CompStore :=
  match alGet st.components entityId with
  | none => st
  | some entityComponents =>
      ⟨alDel st.components entityId, pruneIndex entityId (alKeys entityComponents) st.componentIndex⟩

/-- `ComponentStore.getAllEntities`: `new Set(this.components.keys())`. -/
def storeAllEntities (st : CompStore) : List Nat :=
  st.components.foldl (fun acc p => addUnique acc p.1) []

/-! `Query`, `QueryCache` from src/core/query.ts. -/

/-- `QueryFilter.type`. -/
inductive FType where
  | fall
  | fany
  | fnone
deriving DecidableEq, Repr

/-- `QueryFilter`. -/
structure QFilter where
  ftype : FType
  comps : List String
deriving DecidableEq, Repr

/-- `QueryDescriptor` (each field optional, as in the TS interface). -/
structure QueryDesc where
  allC : Option (List String)
  anyC : Option (List String)
  noneC : Option (List String)
deriving DecidableEq, Repr

/-- Mutable state of one `Query` instance. -/
structure QueryS where
  filters : List QFilter
  cachedResults : Option (List Nat)
  dirty : Bool
deriving DecidableEq, Repr

/-- The `Query` constructor; `none` models the thrown
"Query must have at least one filter" error. -/
def mkQuery (d : QueryDesc) : Option QueryS :=
  let f1 : List QFilter :=
    match d.allC with
    | some l => if l.length > 0 then [⟨FType.fall, l⟩] else []
    | none => []
  let f2 : List QFilter :=
    match d.anyC with
    | some l => if l.length > 0 then [⟨FType.fany, l⟩] else []
    | none => []
  let f3 : List QFilter :=
    match d.noneC with
    | some l => if l.length > 0 then [⟨FType.fnone, l⟩] else []
    | none => []
  let filters := f1 ++ f2 ++ f3
  if filters.isEmpty then none else some ⟨filters, none, true⟩

/-- `Query.matches`. -/
def qMatches (store : CompStore) (filters : List QFilter) (entityId : Nat) : Bool :=
  filters.all fun f =>
    match f.ftype with
    | FType.fall => f.comps.all fun c => storeHas store entityId c
    | FType.fany => f.comps.any fun c => storeHas store entityId c
    | FType.fnone => !(f.comps.any fun c => storeHas store entityId c)

/-- The union loop over `any`-filters in `getCandidateEntities`. -/
def anyUnion (store : CompStore) (anyFilters : List QFilter) : List Nat :=
  anyFilters.foldl
    (fun acc f => f.comps.foldl
      (fun acc2 c => (storeEntitiesWith store c).foldl addUnique acc2) acc) []

/-- The intersection loop over `all`-filters in `getCandidateEntities`
(starting from an optional candidate set). -/
def allIntersect (store : CompStore) (allFilters : List QFilter)
    (start : Option (List Nat)) : Option (List Nat) :=
  allFilters.foldl
    (fun cands f => f.comps.foldl
      (fun cands2 c =>
        let entities := storeEntitiesWith store c
        match cands2 with
        | none => some entities
        | some cs => some (cs.filter fun id => id ∈ entities)) cands) start

/-- `Query.getCandidateEntities`. -/
def getCandidates (store : CompStore) (filters : List QFilter) : List Nat :=
  let anyFilters := filters.filter fun f => f.ftype = FType.fany
  let start : Option (List Nat) :=
    if anyFilters.isEmpty then none else some (anyUnion store anyFilters)
  let allFilters := filters.filter fun f => f.ftype = FType.fall
  match allIntersect store allFilters start with
  | some cands => cands
  | none => storeAllEntities store

/-- `Query.execute`: returns (a copy of) the result set and the updated
query (caching and dirty-flag reset). -/
def executeQ (q : QueryS) (store : CompStore) : List Nat × QueryS :=
  match q.cachedResults with
  | some cached =>
      if !q.dirty then (cached, q)
      else
        let results := (getCandidates store q.filters).filter (qMatches store q.filters)
        (results, { q with cachedResults := some results, dirty := false })
  | none =>
      let results := (getCandidates store q.filters).filter (qMatches store q.filters)
      (results, { q with cachedResults := some results, dirty := false })

/-- JS string comparison (lexicographic on code units). -/
def charListLt : List Char → List Char → Bool
  | [], [] => false
  | [], _ :: _ => true
  | _ :: _, [] => false
  | a :: as, b :: bs =>
      if a.toNat < b.toNat then true
      else if b.toNat < a.toNat then false
      else charListLt as bs

/-- One step of the stable JS string sort used by `getKey`. -/
def insStr (s : String) : List String → List String
  | [] => [s]
  | t :: ts => if charListLt t.data s.data then t :: insStr s ts else s :: t :: ts

def sortStr (l : List String) : List String := l.foldr insStr []

/-- `Array.prototype.join(',')` as a character sequence. -/
def joinComma : List String → List Char
  | [] => []
  | [s] => s.data
  | s :: rest => s.data ++ [','] ++ joinComma rest

def joinBar : List (List Char) → List Char
  | [] => []
  | [s] => s
  | s :: rest => s ++ ['|'] ++ joinBar rest

/-- `QueryCache.getKey`: normalized descriptor key (as its character
sequence). -/
def getKey (d : QueryDesc) : List Char :=
  let parts : List (List Char) :=
    (match d.allC with
     | some l => ["all:".data ++ joinComma (sortStr l)]
     | none => []) ++
    (match d.anyC with
     | some l => ["any:".data ++ joinComma (sortStr l)]
     | none => []) ++
    (match d.noneC with
     | some l => ["none:".data ++ joinComma (sortStr l)]
     | none => [])
  joinBar parts

/-- `QueryCache` state. -/
structure QCache where
  queries : List (List Char × QueryS)
deriving DecidableEq, Repr

/-- `QueryCache.get`: reuse the cached `Query` for the normalized key, or
construct one. `none` models a thrown constructor error. -/
def cacheGet (c : QCache) (d : QueryDesc) : Option (List Char × QueryS × QCache) :=
  let key := getKey d
  match alGet c.queries key with
  | some q => some (key, q, c)
  | none =>
      match mkQuery d with
      | none => none
      | some q => some (key, q, ⟨alSet c.queries key q⟩)

/-- `QueryCache.markAllDirty`. -/
def cacheMarkAllDirty (c : QCache) : QCache :=
  ⟨c.queries.map fun p => (p.1, { p.2 with dirty := true })⟩

/-- `QueryCache.markDirtyForComponent`: substring match on the key. -/
def cacheMarkDirtyFor (c : QCache) (componentId : String) : QCache :=
  ⟨c.queries.map fun p =>
    if keyContains p.1 componentId then (p.1, { p.2 with dirty := true }) else p⟩

/-! `World` entity/component management from src/core/world.ts and the
module-global id counter from src/core/entity.ts. Each created `Entity`
object carries a distinct serial so replacement is observable. -/

structure WorldE where
  entities : List (Nat × Nat)
  counter : Nat
  nextSerial : Nat
  store : CompStore
  cache : QCache
deriving DecidableEq, Repr

/-- A fresh `World` with the module counter at its initial value 1. -/
def initW : WorldE := ⟨[], 1, 0, emptyStore, ⟨[]⟩⟩

/-- `World.createEntity` (`new Entity()` draws `nextEntityId++`); returns the
new entity's id. `Map.set` replaces any previous entity stored under it. -/
def createEntityW (w : WorldE) : WorldE × Nat :=
  let id := w.counter
  ({ w with
      counter := w.counter + 1,
      nextSerial := w.nextSerial + 1,
      entities := alSet w.entities id w.nextSerial }, id)

/-- `World.createEntityWithId`; the returned flag is true when the
"Entity with id ... already exists" error is thrown (state unchanged). -/
def createEntityWithIdW (w : WorldE) (id : Nat) : WorldE × Bool :=
  if alHas w.entities id then (w, true)
  else
    ({ w with
        nextSerial := w.nextSerial + 1,
        entities := alSet w.entities id w.nextSerial }, false)

/-- `World.destroyEntity`. -/
def destroyEntityW (w : WorldE) (id : Nat) : WorldE × Bool :=
  if alHas w.entities id then
    ({ w with
        store := storeRemoveAll w.store id,
        entities := alDel w.entities id,
        cache := cacheMarkAllDirty w.cache }, true)
  else (w, false)

/-- `World.addComponent` of an instance of type `componentId`; the flag is
true when the "Entity does not exist" error is thrown. -/
def addComponentW (w : WorldE) (id : Nat) (componentId : String) : WorldE × Bool :=
  if alHas w.entities id then
    ({ w with
        nextSerial := w.nextSerial + 1,
        store := storeAdd w.store id componentId w.nextSerial,
        cache := cacheMarkDirtyFor w.cache componentId }, false)
  else (w, true)

/-- `World.removeComponent`. -/
def removeComponentW (w : WorldE) (id : Nat) (componentId : String) : WorldE × Bool :=
  let r := storeRemove w.store id componentId
  if r.2 then
    ({ w with store := r.1, cache := cacheMarkDirtyFor w.cache componentId }, true)
  else ({ w with store := r.1 }, false)

/-- `world.query(descriptor).execute()`: fetch (or create) the cached Query
for the descriptor's key and execute it, storing its updated state back.
`none` models a thrown constructor error. -/
def queryExecW (w : WorldE) (d : QueryDesc) : Option (List Nat × WorldE) :=
  match cacheGet w.cache d with
  | none => none
  | some (key, q, c1) =>
      let r := executeQ q w.store
      some (r.1, { w with cache := ⟨alSet c1.queries key r.2⟩ })

/-- The entity-management calls claim C3 ranges over. -/
inductive EOp where
  | ce : EOp
  | cwid : Nat → EOp
  | de : Nat → EOp

/-- Run one entity-management call (a thrown error leaves the world
unchanged, and the caller continues). -/
def stepE (w : WorldE) : EOp → WorldE
  | EOp.ce => (createEntityW w).1
  | EOp.cwid id => (createEntityWithIdW w id).1
  | EOp.de id => (destroyEntityW w id).1

def runEOps (w : WorldE) : List EOp → WorldE
  | [] => w
  | op :: rest => runEOps (stepE w op) rest

/-! Concrete query scenarios used by claims C4 and C5. -/

/-- Descriptor `{all:[A,B]}` of the cache-coherence scenario. -/
def descAB : QueryDesc := ⟨some ["A", "B"], none, none⟩

/-- Cache-coherence scenario before the first query: entities 1 (component A
only) and 2 (components A and B). -/
def cohW0 : WorldE :=
  (addComponentW (addComponentW (addComponentW
    (createEntityW (createEntityW initW).1).1 1 "A").1 2 "A").1 2 "B").1

/-- First `query({all:[A,B]}).execute()` of the scenario. -/
def cohQ1 : Option (List Nat × WorldE) := queryExecW cohW0 descAB

/-- The scenario after `addComponent(e1, B)`. -/
def cohW1 : Option WorldE := cohQ1.map fun r => (addComponentW r.2 1 "B").1

/-- Second execute of the same cached query. -/
def cohQ2 : Option (List Nat × WorldE) := cohW1.bind fun w => queryExecW w descAB

/-- None-only scenario: entity 1 is live with no components at all, entity 2
has component A. -/
def noneW : WorldE := (addComponentW (createEntityW (createEntityW initW).1).1 2 "A").1

/-- `query({none:[B]}).execute()` on that world. -/
def noneQ : Option (List Nat × WorldE) := queryExecW noneW ⟨none, none, some ["B"]⟩

/-- C3 counterexample scenario: `createEntityWithId(1)` on a fresh world with
the counter at 1, followed by `createEntity()`. -/
def dupW1 : WorldE := (createEntityWithIdW initW 1).1

/-! Association-list lemmas used by the entity-uniqueness claim. -/

lemma alKeys_alSet {α β : Type} [DecidableEq α] :
    ∀ (l : List (α × β)) (k : α) (v : β),
      alKeys (alSet l k v) = if k ∈ alKeys l then alKeys l else alKeys l ++ [k] := by
  intro l k v
  induction l with
  | nil => simp [alSet, alKeys]
  | cons p rest ih =>
      by_cases hk : p.1 = k
      · simp [alSet, hk, alKeys]
      · simp only [alSet]
        rw [if_neg hk]
        have hk' : ¬ (k = p.1) := fun h => hk h.symm
        simp only [alKeys, List.map_cons] at ih ⊢
        rw [ih]
        by_cases hm : k ∈ List.map Prod.fst rest
        · simp [hm, hk']
        · simp [hm, hk']

lemma alKeys_alSet_nodup {α β : Type} [DecidableEq α]
    (l : List (α × β)) (k : α) (v : β)
    (hn : (alKeys l).Nodup) : (alKeys (alSet l k v)).Nodup := by
  rw [alKeys_alSet]
  by_cases hm : k ∈ alKeys l
  · simpa [hm] using hn
  · simp only [hm, if_false]
    simp [List.nodup_append, hn, hm]

lemma alKeys_alDel_sublist {α β : Type} [DecidableEq α] :
    ∀ (l : List (α × β)) (k : α), (alKeys (alDel l k)).Sublist (alKeys l) := by
  intro l k
  induction l with
  | nil => simp [alDel, alKeys]
  | cons p rest ih =>
      by_cases hk : p.1 = k
      · simp only [alDel]
        rw [if_pos hk]
        exact List.sublist_cons_self p.1 (alKeys rest)
      · simp only [alDel]
        rw [if_neg hk]
        simpa [alKeys] using ih.cons₂ p.1

lemma alKeys_alDel_nodup {α β : Type} [DecidableEq α] (l : List (α × β)) (k : α)
    (hn : (alKeys l).Nodup) : (alKeys (alDel l k)).Nodup :=
  hn.sublist (alKeys_alDel_sublist l k)

lemma stepE_nodup (w : WorldE) (op : EOp) (hn : (alKeys w.entities).Nodup) :
    (alKeys (stepE w op).entities).Nodup := by
  cases op with
  | ce => exact alKeys_alSet_nodup _ _ _ hn
  | cwid id =>
      simp only [stepE, createEntityWithIdW]
      split
      · exact hn
      · exact alKeys_alSet_nodup _ _ _ hn
  | de id =>
      simp only [stepE, destroyEntityW]
      split
      · exact alKeys_alDel_nodup _ _ hn
      · exact hn

lemma runEOps_nodup : ∀ (ops : List EOp) (w : WorldE),
    (alKeys w.entities).Nodup → (alKeys (runEOps w ops).entities).Nodup := by
  intro ops
  induction ops with
  | nil => intro w hn; exact hn
  | cons op rest ih => intro w hn; exact ih (stepE w op) (stepE_nodup w op hn)

/-- C1. Glitch-free batching on the diamond `s = 1`, `b = s*2`, `c = s+1`,
`d = b+c`, one effect reading `d`: the constructor run leaves the effect at
run count 1; inside `batch(() => s.set(2))` the effect has not re-run and
`s` is merely recorded as batched; when the batch exits the effect has run
exactly once more (count 2, not once per intermediate recomputation); and
with the same write nested in two batches it is still exactly once, the
flush happening only at the outermost exit. -/
theorem c1_glitch_free_batching :
    diamondInit.map (fun st => effRunsO st 4) = some (some 1)
    ∧ diamondMid.map (fun st => (effRunsO st 4, st.batched)) = some (some 1, [0])
    ∧ diamondFinal.map (fun st => effRunsO st 4) = some (some 2)
    ∧ diamondNested.map (fun st => effRunsO st 4) = some (some 2) := by
  refine ⟨by decide, by decide, by decide, by decide⟩

/-- C2. Evaluation of `SystemScheduler.topologicalSort` at the failing input:
two systems of equal priority registered in order `[0, 1]`, where system 0
declares `runBefore: [1]` and system 1 declares nothing. System 0 is visited
first, defers because system 1 is unvisited, and is never visited again: the
computed execution order is `[1]`, silently dropping system 0, so the order
neither contains every system exactly once nor places 0 before 1. -/
theorem c2_runBefore_drops_system :
    topoSort 16 [⟨0, 0, [], [1]⟩, ⟨1, 0, [], []⟩] = some [1] := by decide

/-- C3 (amended). After any sequence of `createEntity` / `createEntityWithId`
/ `destroyEntity` calls on one fresh World, the entity table has pairwise
distinct ids (it is keyed by id), and `createEntityWithId` throws exactly
when the requested id is live. (The original claim's further conjunct — that
`createEntity` never returns a live entity's id nor silently replaces one —
is refuted by `c3_counterexample`.) -/
theorem c3_entity_ids_unique (ops : List EOp) (id : Nat) :
    (alKeys (runEOps initW ops).entities).Nodup
    ∧ ((createEntityWithIdW (runEOps initW ops) id).2 = true
        ↔ alHas (runEOps initW ops).entities id = true) := by
  constructor
  · exact runEOps_nodup ops initW (by simp [initW, alKeys])
  · unfold createEntityWithIdW
    by_cases h : alHas (runEOps initW ops).entities id = true
    · simp [h]
    · simp only [Bool.not_eq_true] at h
      simp [h]

/-- C3 counterexample. On a fresh World (counter at 1), after
`createEntityWithId(1)` the next `createEntity()` draws id 1 from the
counter — the id of a live entity — and `Map.set` silently replaces that
entity (the serial stored under id 1 changes from 0 to 1 and the table still
has a single entry). -/
theorem c3_counterexample :
    (createEntityW dupW1).2 = 1
    ∧ alHas dupW1.entities 1 = true
    ∧ alGet dupW1.entities 1 = some 0
    ∧ alGet (createEntityW dupW1).1.entities 1 = some 1
    ∧ alKeys (createEntityW dupW1).1.entities = [1] := by
  refine ⟨by decide, by decide, by decide, by decide, by decide⟩

/-- C4. Query cache coherence on the concrete scenario: with entity 1 owning
A only and entity 2 owning A and B, `query({all:[A,B]}).execute()` returns
`{2}`; after `addComponent(1, B)` the cache still holds exactly the one
Query instance under the descriptor's key, that instance is dirty, and its
next `execute()` recomputes from the current component index, returning
`{1, 2}` with the cache still of size 1 (no new Query constructed). -/
theorem c4_query_cache_coherence :
    cohQ1.map Prod.fst = some [2]
    ∧ cohW1.map (fun w => w.cache.queries.length) = some 1
    ∧ cohW1.map (fun w => alHas w.cache.queries (getKey descAB)) = some true
    ∧ cohW1.map (fun w => (alGet w.cache.queries (getKey descAB)).map QueryS.dirty)
        = some (some true)
    ∧ cohQ2.map Prod.fst = some [1, 2]
    ∧ cohQ2.map (fun r => r.2.cache.queries.length) = some 1 := by
  refine ⟨by decide, by decide, by decide, by decide, by decide, by decide⟩

/-- C5 (amended). A query built only from a non-empty `none` filter executes
to exactly the entities known to the component store (those with an entry in
its per-entity map, in insertion order) that possess none of the listed
component types. Live entities that never had any component are NOT
candidates: the default candidate set is `ComponentStore.getAllEntities()`,
the store's map keys, not the World's live-entity table (see
`c5_counterexample`). -/
theorem c5_none_only_query (store : CompStore) (ns : List String) (h : ns ≠ []) :
    (mkQuery ⟨none, none, some ns⟩).map (fun q => (executeQ q store).1)
      = some ((storeAllEntities store).filter
          (fun e => !(ns.any (fun c => storeHas store e c)))) := by
  have hl : ns.length > 0 := List.length_pos.mpr h
  simp [mkQuery, hl, executeQ, getCandidates, allIntersect, anyUnion]
  refine List.filter_congr ?_
  intro e _
  simp [qMatches]

/-- Witness for `c5_none_only_query`: the none-only filter `{none:[B]}`
executed against the concrete scenario store. -/
theorem c5_none_only_query_witness :
    (["B"] : List String) ≠ []
    ∧ (mkQuery ⟨none, none, some ["B"]⟩).map (fun q => (executeQ q noneW.store).1)
        = some ((storeAllEntities noneW.store).filter
            (fun e => !(["B"].any (fun c => storeHas noneW.store e c)))) :=
  ⟨by decide, c5_none_only_query noneW.store ["B"] (by decide)⟩

/-- C5 counterexample. Entity 1 is live but never had any component; entity 2
has component A. Neither has B, yet `query({none:[B]}).execute()` returns
only `{2}` — entity 1 is missing because the candidate set is the component
store's entity map, not all live entities, refuting the claim as stated. -/
theorem c5_counterexample :
    noneQ.map Prod.fst = some [2]
    ∧ alKeys noneW.entities = [1, 2]
    ∧ storeHas noneW.store 1 "B" = false
    ∧ storeHas noneW.store 2 "B" = false := by
  refine ⟨by decide, by decide, by decide, by decide⟩

lemma execPhase_eq_map (ph : Option HandlerM) :
    ∀ l : List SystemM, execPhase ph l = l.map (execPhaseStep ph) := by
  intro l
  induction l with
  | nil => rfl
  | cons s rest ih => simp [execPhase, ih]

/-- C6. Failure containment of system dispatch: (1) the phase loop processes
every system of the phase independently (an earlier system's throw cannot
stop later systems — the dispatch is pointwise); for an enabled system whose
function (2) throws, `consecutiveFailures` goes up by exactly 1 and the body
was invoked once, (3) returns normally, the counter resets to 0; (4) when
the error-handling chain resolves to DISABLE, the system's enabled flag
becomes false; and (5) a disabled system is skipped untouched by later
dispatches. -/
theorem c6_failure_containment (ph : Option HandlerM) (s : SystemM) (l : List SystemM) :
    execPhase ph l = l.map (execPhaseStep ph)
    ∧ (s.enabled = true → s.beh s.runCount = true →
        (execPhaseStep ph s).failures = s.failures + 1
        ∧ (execPhaseStep ph s).runCount = s.runCount + 1)
    ∧ (s.enabled = true → s.beh s.runCount = false → (execPhaseStep ph s).failures = 0)
    ∧ (s.enabled = true → s.beh s.runCount = true →
        resolvedStrategy ph s = StrategyM.sDISABLE → (execPhaseStep ph s).enabled = false)
    ∧ (s.enabled = false → execPhaseStep ph s = s) := by
  refine ⟨execPhase_eq_map ph l, ?_, ?_, ?_, ?_⟩
  · intro he hb
    cases hoe : s.onErr with
    | none =>
        cases ph with
        | none => simp [execPhaseStep, sysRun, he, hb, hoe]
        | some h =>
            simp only [execPhaseStep, sysRun, he, hb, hoe]
            simp only [Bool.not_true, Bool.false_eq_true, if_false, if_true]
            split <;> simp
    | some h => simp [execPhaseStep, sysRun, he, hb, hoe]
  · intro he hb
    simp [execPhaseStep, sysRun, he, hb]
  · intro he hb hr
    cases hoe : s.onErr with
    | none =>
        cases hph : ph with
        | none => simp [resolvedStrategy, hoe, hph] at hr
        | some h =>
            simp only [resolvedStrategy, hoe, hph] at hr
            have hh : h ⟨s.sid, s.failures + 1⟩ = some StrategyM.sDISABLE := by
              cases hc : h ⟨s.sid, s.failures + 1⟩ with
              | none => simp [hc] at hr
              | some strat => simp [hc] at hr; simp [hr]
            simp [execPhaseStep, sysRun, he, hb, hoe, hph, hh]
    | some h =>
        simp only [resolvedStrategy, hoe] at hr
        simp [execPhaseStep, sysRun, he, hb, hoe, hr]
  · intro he
    simp [execPhaseStep, he]

/-- Witness for `c6_failure_containment`: a concrete always-throwing system
whose local handler answers DISABLE, dispatched in a phase with the default
phase-level handler. -/
theorem c6_failure_containment_witness :
    (⟨7, true, 0, 0, fun _ => true, some (fun _ => some StrategyM.sDISABLE)⟩ : SystemM).enabled = true
    ∧ ((⟨7, true, 0, 0, fun _ => true, some (fun _ => some StrategyM.sDISABLE)⟩ : SystemM).beh 0 = true)
    ∧ resolvedStrategy (some defaultErrorHandlerM)
        ⟨7, true, 0, 0, fun _ => true, some (fun _ => some StrategyM.sDISABLE)⟩ = StrategyM.sDISABLE
    ∧ (execPhaseStep (some defaultErrorHandlerM)
        ⟨7, true, 0, 0, fun _ => true, some (fun _ => some StrategyM.sDISABLE)⟩).failures = 0 + 1
    ∧ (execPhaseStep (some defaultErrorHandlerM)
        ⟨7, true, 0, 0, fun _ => true, some (fun _ => some StrategyM.sDISABLE)⟩).enabled = false := by
  refine ⟨rfl, rfl, rfl, ?_, ?_⟩
  · exact ((c6_failure_containment (some defaultErrorHandlerM)
      ⟨7, true, 0, 0, fun _ => true, some (fun _ => some StrategyM.sDISABLE)⟩ []).2.1 rfl rfl).1
  · exact (c6_failure_containment (some defaultErrorHandlerM)
      ⟨7, true, 0, 0, fun _ => true, some (fun _ => some StrategyM.sDISABLE)⟩ []).2.2.2.1 rfl rfl rfl

lemma drain_spec (fd : ℚ) : ∀ (k : Nat) (st : WTime),
    (drain fd k st).2 ≤ k
    ∧ (drain fd k st).1.fixedCount = st.fixedCount + (drain fd k st).2
    ∧ (drain fd k st).1.fixedTime = st.fixedTime + (drain fd k st).2 * fd
    ∧ (drain fd k st).1.accumulator = st.accumulator - (drain fd k st).2 * fd
    ∧ (drain fd k st).1.time = st.time
    ∧ (drain fd k st).1.paused = st.paused
    ∧ (drain fd k st).1.updateCount = st.updateCount
    ∧ (drain fd k st).1.lateCount = st.lateCount
    ∧ ((drain fd k st).2 < k → (drain fd k st).1.accumulator < fd)
    ∧ (∀ m : Nat, m < (drain fd k st).2 → fd ≤ st.accumulator - m * fd) := by
  intro k
  induction k with
  | zero =>
      intro st
      simp [drain]
  | succ k ih =>
      intro st
      by_cases hge : st.accumulator ≥ fd
      · have heq : drain fd (k + 1) st
            = ((drain fd k { st with
                fixedCount := st.fixedCount + 1,
                accumulator := st.accumulator - fd,
                fixedTime := st.fixedTime + fd }).1,
               (drain fd k { st with
                fixedCount := st.fixedCount + 1,
                accumulator := st.accumulator - fd,
                fixedTime := st.fixedTime + fd }).2 + 1) := by
          simp [drain, hge]
        obtain ⟨h1, h2, h3, h4, h5, h6, h7, h8, h9, h10⟩ := ih { st with
          fixedCount := st.fixedCount + 1,
          accumulator := st.accumulator - fd,
          fixedTime := st.fixedTime + fd }
        rw [heq]
        refine ⟨by omega, by simp [h2]; omega, ?_, ?_, h5, h6, h7, h8, ?_, ?_⟩
        · simp only [h3]
          push_cast
          ring
        · simp only [h4]
          push_cast
          ring
        · intro hlt
          exact h9 (by omega)
        · intro m hm
          cases m with
          | zero => simpa using hge
          | succ m' =>
              have := h10 m' (by omega)
              simp only at this
              push_cast at this ⊢
              linarith
      · have heq : drain fd (k + 1) st = (st, 0) := by simp [drain, hge]
        rw [heq]
        refine ⟨by omega, by simp, by simp, by simp, rfl, rfl, rfl, rfl, ?_, ?_⟩
        · intro _
          simpa using lt_of_not_ge hge
        · intro m hm
          omega

/-- C7. Fixed-step accumulation: on an unpaused world, `update(dt)` adds `dt`
to logical time and to the accumulator, runs the `fixedUpdate` phase once per
drained step (each drained step started with at least one fixed timestep in
the accumulator, and there are at most `maxFixedUpdates` of them), advances
fixed time by one fixed timestep per drain; after draining, if the cap was
hit the remaining accumulator is reset to zero, otherwise the accumulator
keeps the undrained remainder, which is below the fixed timestep. In
particular, with `fixedTimestep = 16.67` a first `update(16)` fires no
fixedUpdate and a second `update(16)` fires exactly one. -/
theorem c7_fixed_step (fd : ℚ) (maxF : Nat) (dt : ℚ) (st : WTime) (hp : st.paused = false) :
    (wUpdate fd maxF dt st).time = st.time + dt
    ∧ (wUpdate fd maxF dt st).fixedCount = st.fixedCount + drainCount fd maxF dt st
    ∧ (wUpdate fd maxF dt st).fixedTime = st.fixedTime + (drainCount fd maxF dt st : ℚ) * fd
    ∧ drainCount fd maxF dt st ≤ maxF
    ∧ (∀ m : Nat, m < drainCount fd maxF dt st → fd ≤ st.accumulator + dt - (m : ℚ) * fd)
    ∧ (drainCount fd maxF dt st = maxF → (wUpdate fd maxF dt st).accumulator = 0)
    ∧ (drainCount fd maxF dt st < maxF →
        (wUpdate fd maxF dt st).accumulator
          = st.accumulator + dt - (drainCount fd maxF dt st : ℚ) * fd
        ∧ (wUpdate fd maxF dt st).accumulator < fd)
    ∧ (wUpdate (1667/100) 5 16 wInit).fixedCount = 0
    ∧ (wUpdate (1667/100) 5 16 (wUpdate (1667/100) 5 16 wInit)).fixedCount = 1 := by
  obtain ⟨t, ft, acc, p, fc, uc, lc⟩ := st
  replace hp : p = false := hp
  subst hp
  obtain ⟨h1, h2, h3, h4, h5, h6, h7, h8, h9, h10⟩ :=
    drain_spec fd maxF ⟨t + dt, ft, acc + dt, false, fc, uc, lc⟩
  simp only at h1 h2 h3 h4 h5 h6 h7 h8 h9 h10
  by_cases hcap : (drain fd maxF ⟨t + dt, ft, acc + dt, false, fc, uc, lc⟩).2 ≥ maxF
  · simp only [wUpdate, drainCount, hcap, if_true]
    refine ⟨by simp [h5], by simp [h2], by simp [h3], h1, ?_, fun _ => rfl, ?_, ?_, ?_⟩
    · intro m hm
      simpa using h10 m hm
    · intro hlt
      omega
    · norm_num [wUpdate, drain, wInit]
    · norm_num [wUpdate, drain, wInit]
  · simp only [wUpdate, drainCount, hcap, if_false]
    refine ⟨by simp [h5], by simp [h2], by simp [h3], h1, ?_, ?_, ?_, ?_, ?_⟩
    · intro m hm
      simpa using h10 m hm
    · intro hEq
      exact absurd (ge_of_eq hEq) hcap
    · intro _
      constructor
      · simpa using h4
      · exact h9 (by omega)
    · norm_num [wUpdate, drain, wInit]
    · norm_num [wUpdate, drain, wInit]

/-- Witness for `c7_fixed_step`: the concrete two-update scenario at
`fixedTimestep = 16.67`. -/
theorem c7_fixed_step_witness :
    wInit.paused = false
    ∧ (wUpdate (1667/100) 5 16 wInit).time = wInit.time + 16
    ∧ (wUpdate (1667/100) 5 16 wInit).fixedCount = 0
    ∧ (wUpdate (1667/100) 5 16 (wUpdate (1667/100) 5 16 wInit)).fixedCount = 1 := by
  have h := c7_fixed_step (1667/100) 5 16 wInit rfl
  exact ⟨rfl, h.1, h.2.2.2.2.2.2.2.1, h.2.2.2.2.2.2.2.2⟩

/-- C9. Write idempotence: `set(v)` with `v` equal (under `Object.is`, so
NaN equals NaN) to the signal's current value does nothing at all — the
state is returned unchanged, so no subscriber is marked stale or re-run.
Concretely, with `s = signal(5)` and an effect reading `s` (run count 1
after construction), `s.set(5)` leaves the count at 1, a first `s.set(NaN)`
is a genuine write re-running the effect (count 2), and a second
`s.set(NaN)` leaves the count at 2. -/
theorem c9_write_idempotence (f : Nat) (i : Nat) (v w : Value) (st : RState)
    (hk : (getN st i).kind = NodeKind.sig w) (he : objectIs w v = true) :
    exec (f + 1) (RCmd.cSet i v) st = some (dummyV, st)
    ∧ idemInit.map (fun s => effRunsO s 1) = some (some 1)
    ∧ idemSame.map (fun s => effRunsO s 1) = some (some 1)
    ∧ idemNan1.map (fun s => effRunsO s 1) = some (some 2)
    ∧ idemNan2.map (fun s => effRunsO s 1) = some (some 2) := by
  refine ⟨?_, by decide, by decide, by decide, by decide⟩
  simp [exec, hk, he]

/-- Witness for `c9_write_idempotence`: the no-op write `s.set(5)` on the
concrete signal holding 5. -/
theorem c9_write_idempotence_witness :
    (getN idem0 0).kind = NodeKind.sig (Value.num 5)
    ∧ objectIs (Value.num 5) (Value.num 5) = true
    ∧ exec 31 (RCmd.cSet 0 (Value.num 5)) idem0 = some (dummyV, idem0) := by
  refine ⟨by decide, by decide,
    (c9_write_idempotence 30 0 (Value.num 5) (Value.num 5) idem0 (by decide) (by decide)).1⟩

lemma wUpdate_paused_facts (fd : ℚ) (maxF : Nat) (dt : ℚ) (st : WTime) :
    (st.paused = true → wUpdate fd maxF dt st = st)
    ∧ (st.paused = false →
        (wUpdate fd maxF dt st).time = st.time + dt ∧ (wUpdate fd maxF dt st).paused = false) := by
  obtain ⟨t, ft, acc, p, fc, uc, lc⟩ := st
  constructor
  · intro hp
    replace hp : p = true := hp
    subst hp
    simp [wUpdate]
  · intro hp
    replace hp : p = false := hp
    subst hp
    obtain ⟨_, _, _, _, h5, h6, _, _, _, _⟩ :=
      drain_spec fd maxF ⟨t + dt, ft, acc + dt, false, fc, uc, lc⟩
    simp only at h5 h6
    rcases Classical.em ((drain fd maxF ⟨t + dt, ft, acc + dt, false, fc, uc, lc⟩).2 ≥ maxF)
      with hcap | hcap
    · constructor
      · simp [wUpdate, hcap, h5]
      · simp [wUpdate, hcap, h6]
    · constructor
      · simp [wUpdate, hcap, h5]
      · simp [wUpdate, hcap, h6]

/-- C10. While paused, `update(deltaTime)` is a complete no-op for every
delta: the state (so logical time, fixed time, the accumulator, and every
phase counter) is unchanged. Consequently across an unpaused update of d1, a
pause, an update of d2 (swallowed), a resume and an update of d3, logical
time advances by exactly d1 + d3. -/
theorem c10_paused_noop (fd : ℚ) (maxF : Nat) (d1 d2 d3 : ℚ) (st : WTime) :
    (st.paused = true → wUpdate fd maxF d1 st = st)
    ∧ (st.paused = false →
        (wUpdate fd maxF d3 (wResume (wUpdate fd maxF d2
          (wPause (wUpdate fd maxF d1 st))))).time = st.time + d1 + d3) := by
  refine ⟨fun hp => (wUpdate_paused_facts fd maxF d1 st).1 hp, fun hp => ?_⟩
  have l1 := (wUpdate_paused_facts fd maxF d1 st).2 hp
  have l2 : wUpdate fd maxF d2 (wPause (wUpdate fd maxF d1 st))
      = wPause (wUpdate fd maxF d1 st) :=
    (wUpdate_paused_facts fd maxF d2 (wPause (wUpdate fd maxF d1 st))).1 rfl
  rw [l2]
  have l3 := (wUpdate_paused_facts fd maxF d3
    (wResume (wPause (wUpdate fd maxF d1 st)))).2 rfl
  rw [l3.1]
  show (wUpdate fd maxF d1 st).time + d3 = st.time + d1 + d3
  rw [l1.1]

/-- Witness for `c10_paused_noop`: a paused world swallows `update(42)`
unchanged, and a concrete pause/resume pair accumulates only the unpaused
deltas. -/
theorem c10_paused_noop_witness :
    (wPause wInit).paused = true
    ∧ wUpdate (1667/100) 5 42 (wPause wInit) = wPause wInit
    ∧ wInit.paused = false
    ∧ (wUpdate (1667/100) 5 7 (wResume (wUpdate (1667/100) 5 9
        (wPause (wUpdate (1667/100) 5 5 wInit))))).time = wInit.time + 5 + 7 := by
  refine ⟨rfl, (c10_paused_noop (1667/100) 5 42 0 0 (wPause wInit)).1 rfl, rfl,
    (c10_paused_noop (1667/100) 5 5 9 7 wInit).2 rfl⟩

/-! Preservation of the dependency/subscriber symmetry by the reactive
runtime (claim C8). Only `track` and `clearDependencies` ever touch edge
sets inside the evaluator; `dispose` is the one operation outside it. -/

lemma mem_addUnique {l : List Nat} {x y : Nat} : y ∈ addUnique l x ↔ y ∈ l ∨ y = x := by
  unfold addUnique
  split
  · rename_i hx
    constructor
    · exact Or.inl
    · rintro (h | rfl)
      · exact h
      · exact hx
  · simp

lemma getN_modifyN_self (st : RState) (i : Nat) (g : Node → Node) :
    getN (modifyN st i g) i = g (getN st i) := by
  simp [getN, modifyN, setN]

lemma getN_modifyN_ne (st : RState) (i j : Nat) (g : Node → Node) (h : j ≠ i) :
    getN (modifyN st i g) j = getN st j := by
  simp [getN, modifyN, setN, h]

lemma sym_of_edges {st st' : RState}
    (h : ∀ j, (getN st' j).subs = (getN st j).subs ∧ (getN st' j).deps = (getN st j).deps)
    (hs : Sym st) : Sym st' := by
  intro a b hb
  rw [(h a).2] at hb
  rw [(h b).1]
  exact hs a b hb

lemma sym_modify_flags {st : RState} {i : Nat} {g : Node → Node}
    (hg : ∀ n, (g n).subs = n.subs ∧ (g n).deps = n.deps) (hs : Sym st) :
    Sym (modifyN st i g) := by
  refine sym_of_edges (fun j => ?_) hs
  by_cases hj : j = i
  · subst hj
    rw [getN_modifyN_self]
    exact hg _
  · rw [getN_modifyN_ne _ _ _ _ hj]
    exact ⟨rfl, rfl⟩

lemma track_sym (st : RState) (i : Nat) (hs : Sym st) : Sym (track st i) := by
  unfold track
  cases ho : st.observer with
  | none => exact hs
  | some o =>
      show Sym (if o ≠ i then
        modifyN (modifyN st i fun n => { n with subs := addUnique n.subs o }) o
          fun n => { n with deps := addUnique n.deps i }
        else st)
      by_cases hoi : o ≠ i
      · rw [if_pos hoi]
        have hdeps : ∀ x, (getN (modifyN (modifyN st i fun n => { n with subs := addUnique n.subs o })
            o fun n => { n with deps := addUnique n.deps i }) x).deps
            = if x = o then addUnique (getN st x).deps i else (getN st x).deps := by
          intro x
          by_cases hxo : x = o
          · subst hxo
            rw [getN_modifyN_self, if_pos rfl, getN_modifyN_ne _ _ _ _ hoi]
          · rw [getN_modifyN_ne _ _ _ _ hxo, if_neg hxo]
            by_cases hxi : x = i
            · subst hxi
              rw [getN_modifyN_self]
            · rw [getN_modifyN_ne _ _ _ _ hxi]
        have hsubs : ∀ x, (getN (modifyN (modifyN st i fun n => { n with subs := addUnique n.subs o })
            o fun n => { n with deps := addUnique n.deps i }) x).subs
            = if x = i then addUnique (getN st x).subs o else (getN st x).subs := by
          intro x
          by_cases hxo : x = o
          · subst hxo
            rw [getN_modifyN_self, if_neg hoi, getN_modifyN_ne _ _ _ _ hoi]
          · rw [getN_modifyN_ne _ _ _ _ hxo]
            by_cases hxi : x = i
            · subst hxi
              rw [getN_modifyN_self, if_pos rfl]
            · rw [getN_modifyN_ne _ _ _ _ hxi, if_neg hxi]
        intro a b hb
        rw [hdeps] at hb
        rw [hsubs]
        by_cases hao : a = o
        · subst hao
          rw [if_pos rfl] at hb
          rcases mem_addUnique.mp hb with hbd | rfl
          · have hsb := hs a b hbd
            by_cases hbi : b = i
            · subst hbi
              rw [if_pos rfl]
              exact mem_addUnique.mpr (Or.inl hsb)
            · rw [if_neg hbi]
              exact hsb
          · rw [if_pos rfl]
            exact mem_addUnique.mpr (Or.inr rfl)
        · rw [if_neg hao] at hb
          have hsb := hs a b hb
          by_cases hbi : b = i
          · subst hbi
            rw [if_pos rfl]
            exact mem_addUnique.mpr (Or.inl hsb)
          · rw [if_neg hbi]
            exact hsb
      · rw [if_neg hoi]
        exact hs

lemma clearFold_facts (i : Nat) : ∀ (ds : List Nat) (st : RState) (j : Nat),
    (getN (clearFold i ds st) j).deps = (getN st j).deps
    ∧ (∀ x, x ∈ (getN (clearFold i ds st) j).subs → x ∈ (getN st j).subs)
    ∧ (∀ x, x ≠ i → x ∈ (getN st j).subs → x ∈ (getN (clearFold i ds st) j).subs) := by
  intro ds
  induction ds with
  | nil => exact fun st j => ⟨rfl, fun x h => h, fun x _ h => h⟩
  | cons d rest ih =>
      intro st j
      obtain ⟨hA, hB, hC⟩ := ih (modifyN st d fun n => { n with subs := n.subs.erase i }) j
      have hmid : ∀ P : Node → Prop,
          P (getN (modifyN st d fun n => { n with subs := n.subs.erase i }) j)
          → (if j = d then P { getN st j with subs := (getN st j).subs.erase i } else P (getN st j)) := by
        intro P hP
        by_cases hjd : j = d
        · subst hjd
          rw [getN_modifyN_self] at hP
          rw [if_pos rfl]
          exact hP
        · rw [getN_modifyN_ne _ _ _ _ hjd] at hP
          rw [if_neg hjd]
          exact hP
      refine ⟨?_, ?_, ?_⟩
      · rw [show clearFold i (d :: rest) st
            = clearFold i rest (modifyN st d fun n => { n with subs := n.subs.erase i }) from rfl]
        rw [hA]
        by_cases hjd : j = d
        · subst hjd
          rw [getN_modifyN_self]
        · rw [getN_modifyN_ne _ _ _ _ hjd]
      · intro x hx
        rw [show clearFold i (d :: rest) st
            = clearFold i rest (modifyN st d fun n => { n with subs := n.subs.erase i }) from rfl] at hx
        have := hB x hx
        by_cases hjd : j = d
        · subst hjd
          rw [getN_modifyN_self] at this
          exact List.mem_of_mem_erase this
        · rw [getN_modifyN_ne _ _ _ _ hjd] at this
          exact this
      · intro x hxi hxs
        rw [show clearFold i (d :: rest) st
            = clearFold i rest (modifyN st d fun n => { n with subs := n.subs.erase i }) from rfl]
        refine hC x hxi ?_
        by_cases hjd : j = d
        · subst hjd
          rw [getN_modifyN_self]
          exact (List.mem_erase_of_ne hxi).mpr hxs
        · rw [getN_modifyN_ne _ _ _ _ hjd]
          exact hxs

lemma clearDeps_sym (st : RState) (i : Nat) (hs : Sym st) : Sym (clearDeps st i) := by
  intro a b hb
  unfold clearDeps at hb ⊢
  by_cases hai : a = i
  · subst hai
    rw [getN_modifyN_self] at hb
    simp at hb
  · rw [getN_modifyN_ne _ _ _ _ hai] at hb
    obtain ⟨hA, _, _⟩ := clearFold_facts i (getN st i).deps st a
    rw [hA] at hb
    have hsb := hs a b hb
    by_cases hbi : b = i
    · subst hbi
      rw [getN_modifyN_self]
      show a ∈ (getN (clearFold b (getN st b).deps st) b).subs
      exact (clearFold_facts b (getN st b).deps st b).2.2 a hai hsb
    · rw [getN_modifyN_ne _ _ _ _ hbi]
      exact (clearFold_facts i (getN st i).deps st b).2.2 a hai hsb

lemma stalePass_edges (i : Nat) : ∀ (l : List Nat) (st : RState) (j : Nat),
    (getN (stalePass i l st) j).subs = (getN st j).subs
    ∧ (getN (stalePass i l st) j).deps = (getN st j).deps := by
  intro l
  induction l with
  | nil => exact fun st j => ⟨rfl, rfl⟩
  | cons s rest ih =>
      intro st j
      rw [show stalePass i (s :: rest) st
          = stalePass i rest (if s ∈ (getN st i).subs
              then modifyN st s (fun n => { n with stale := true }) else st) from rfl]
      obtain ⟨hA, hB⟩ := ih (if s ∈ (getN st i).subs
        then modifyN st s (fun n => { n with stale := true }) else st) j
      rw [hA, hB]
      split
      · by_cases hjs : j = s
        · subst hjs
          rw [getN_modifyN_self]
          exact ⟨rfl, rfl⟩
        · rw [getN_modifyN_ne _ _ _ _ hjs]
          exact ⟨rfl, rfl⟩
      · exact ⟨rfl, rfl⟩

lemma collectSubs_edges : ∀ (l : List Nat) (st : RState) (p : List Nat) (j : Nat),
    (getN (collectSubs l st p).1 j).subs = (getN st j).subs
    ∧ (getN (collectSubs l st p).1 j).deps = (getN st j).deps := by
  intro l
  induction l with
  | nil => exact fun st p j => ⟨rfl, rfl⟩
  | cons sub rest ih =>
      intro st p j
      rw [show collectSubs (sub :: rest) st p
          = collectSubs rest (modifyN st sub fun n => { n with stale := true })
              (addUnique p sub) from rfl]
      obtain ⟨hA, hB⟩ := ih (modifyN st sub fun n => { n with stale := true }) (addUnique p sub) j
      rw [hA, hB]
      by_cases hjs : j = sub
      · subst hjs
        rw [getN_modifyN_self]
        exact ⟨rfl, rfl⟩
      · rw [getN_modifyN_ne _ _ _ _ hjs]
        exact ⟨rfl, rfl⟩

lemma collectPending_edges : ∀ (bs : List Nat) (st : RState) (p : List Nat) (j : Nat),
    (getN (collectPending bs st p).1 j).subs = (getN st j).subs
    ∧ (getN (collectPending bs st p).1 j).deps = (getN st j).deps := by
  intro bs
  induction bs with
  | nil => exact fun st p j => ⟨rfl, rfl⟩
  | cons sg rest ih =>
      intro st p j
      rw [show collectPending (sg :: rest) st p
          = collectPending rest (collectSubs (getN st sg).subs st p).1
              (collectSubs (getN st sg).subs st p).2 from rfl]
      obtain ⟨hA, hB⟩ := ih (collectSubs (getN st sg).subs st p).1
        (collectSubs (getN st sg).subs st p).2 j
      rw [hA, hB]
      exact collectSubs_edges (getN st sg).subs st p j

theorem exec_sym : ∀ (f : Nat) (c : RCmd) (st : RState) (v : Value) (st' : RState),
    Sym st → exec f c st = some (v, st') → Sym st' := by
  intro f
  induction f with
  | zero =>
      intro c st v st' _ h
      simp [exec] at h
  | succ f ih =>
      intro c st v st' hs h
      cases c with
      | cEval e =>
          cases e with
          | lit n =>
              simp only [exec, Option.some.injEq, Prod.mk.injEq] at h
              obtain ⟨-, rfl⟩ := h
              exact hs
          | read i =>
              simp only [exec] at h
              exact ih _ _ _ _ hs h
          | add a b =>
              simp only [exec] at h
              cases h1 : exec f (RCmd.cEval a) st with
              | none => simp [h1] at h
              | some r =>
                  obtain ⟨va, st1⟩ := r
                  simp only [h1] at h
                  cases h2 : exec f (RCmd.cEval b) st1 with
                  | none => simp [h2] at h
                  | some r2 =>
                      obtain ⟨vb, st2⟩ := r2
                      simp only [h2, Option.some.injEq, Prod.mk.injEq] at h
                      obtain ⟨-, rfl⟩ := h
                      exact ih _ _ _ _ (ih _ _ _ _ hs h1) h2
          | mul a b =>
              simp only [exec] at h
              cases h1 : exec f (RCmd.cEval a) st with
              | none => simp [h1] at h
              | some r =>
                  obtain ⟨va, st1⟩ := r
                  simp only [h1] at h
                  cases h2 : exec f (RCmd.cEval b) st1 with
                  | none => simp [h2] at h
                  | some r2 =>
                      obtain ⟨vb, st2⟩ := r2
                      simp only [h2, Option.some.injEq, Prod.mk.injEq] at h
                      obtain ⟨-, rfl⟩ := h
                      exact ih _ _ _ _ (ih _ _ _ _ hs h1) h2
      | cGet i =>
          simp only [exec] at h
          cases hk : (getN st i).kind with
          | sig w =>
              simp only [hk, Option.some.injEq, Prod.mk.injEq] at h
              obtain ⟨-, rfl⟩ := h
              exact track_sym st i hs
          | comp e cv cflag =>
              simp only [hk] at h
              split at h
              · exact absurd h (by simp)
              · rename_i r w1 st1 heq
                have hsym1 : Sym st1 := by
                  split at heq
                  · exact ih _ _ _ _ hs heq
                  · simp only [Option.some.injEq, Prod.mk.injEq] at heq
                    obtain ⟨-, rfl⟩ := heq
                    exact hs
                cases hk2 : (getN (track st1 i) i).kind with
                | sig w2 => simp [hk2] at h
                | eff e2 r2 d2 => simp [hk2] at h
                | comp e2 ov2 b2 =>
                    cases ov2 with
                    | none => simp [hk2] at h
                    | some vv =>
                        simp only [hk2, Option.some.injEq, Prod.mk.injEq] at h
                        obtain ⟨-, rfl⟩ := h
                        exact track_sym st1 i hsym1
          | eff e2 r2 d2 => simp [hk] at h
      | cRecompute i =>
          simp only [exec] at h
          cases hk : (getN st i).kind with
          | sig w => simp [hk] at h
          | eff e2 r2 d2 => simp [hk] at h
          | comp e cv cb =>
              simp only [hk] at h
              cases h3 : exec f (RCmd.cEval e) { clearDeps st i with observer := some i } with
              | none => simp [h3] at h
              | some r =>
                  obtain ⟨vv, st3⟩ := r
                  simp only [h3, Option.some.injEq, Prod.mk.injEq] at h
                  obtain ⟨-, rfl⟩ := h
                  have hsym3 : Sym st3 :=
                    ih (RCmd.cEval e) { clearDeps st i with observer := some i } vv st3
                      (clearDeps_sym st i hs) h3
                  exact @sym_modify_flags st3 i
                    (fun n => { n with kind := setCompVal n.kind vv, stale := false })
                    (fun n => ⟨rfl, rfl⟩) hsym3
      | cRunEff i =>
          simp only [exec] at h
          cases hk : (getN st i).kind with
          | sig w => simp [hk] at h
          | comp e cv cb => simp [hk] at h
          | eff e r d =>
              simp only [hk] at h
              by_cases hd : d = true
              · rw [if_pos hd] at h
                simp only [Option.some.injEq, Prod.mk.injEq] at h
                obtain ⟨-, rfl⟩ := h
                exact hs
              · rw [if_neg hd] at h
                cases h3 : exec f (RCmd.cEval e) { clearDeps st i with observer := some i } with
                | none => simp [h3] at h
                | some r3 =>
                    obtain ⟨vv, st3⟩ := r3
                    simp only [h3, Option.some.injEq, Prod.mk.injEq] at h
                    obtain ⟨-, rfl⟩ := h
                    have hsym3 : Sym st3 :=
                      ih (RCmd.cEval e) { clearDeps st i with observer := some i } vv st3
                        (clearDeps_sym st i hs) h3
                    exact @sym_modify_flags st3 i
                      (fun n => { n with kind := bumpEff n.kind, stale := false })
                      (fun n => ⟨rfl, rfl⟩) hsym3
      | cNotify i =>
          simp only [exec] at h
          refine ih _ _ _ _ ?_ h
          exact sym_of_edges (fun j => stalePass_edges i (getN st i).subs st j) hs
      | cNotify2 i l =>
          cases l with
          | nil =>
              simp only [exec, Option.some.injEq, Prod.mk.injEq] at h
              obtain ⟨-, rfl⟩ := h
              exact hs
          | cons s rest =>
              simp only [exec] at h
              by_cases hmem : s ∈ (getN st i).subs
              · rw [if_pos hmem] at h
                cases h1 : exec f (RCmd.cUpdate s) st with
                | none => simp [h1] at h
                | some r =>
                    obtain ⟨w1, st1⟩ := r
                    simp only [h1] at h
                    exact ih _ _ _ _ (ih _ _ _ _ hs h1) h
              · rw [if_neg hmem] at h
                exact ih _ _ _ _ hs h
      | cUpdate i =>
          simp only [exec] at h
          cases hk : (getN st i).kind with
          | sig w =>
              simp only [hk, Option.some.injEq, Prod.mk.injEq] at h
              obtain ⟨-, rfl⟩ := h
              exact hs
          | comp e cv cb =>
              simp only [hk] at h
              by_cases hst : (getN st i).stale = true
              · rw [if_pos hst] at h
                cases h1 : exec f (RCmd.cRecompute i) st with
                | none => simp [h1] at h
                | some r =>
                    obtain ⟨w1, st1⟩ := r
                    simp only [h1] at h
                    exact ih _ _ _ _ (ih _ _ _ _ hs h1) h
              · rw [if_neg hst] at h
                simp only [Option.some.injEq, Prod.mk.injEq] at h
                obtain ⟨-, rfl⟩ := h
                exact hs
          | eff e r d =>
              simp only [hk] at h
              by_cases hc : (!(getN st i).stale || d) = true
              · rw [if_pos hc] at h
                simp only [Option.some.injEq, Prod.mk.injEq] at h
                obtain ⟨-, rfl⟩ := h
                exact hs
              · rw [if_neg hc] at h
                exact ih _ _ _ _ hs h
      | cUpdList l =>
          cases l with
          | nil =>
              simp only [exec, Option.some.injEq, Prod.mk.injEq] at h
              obtain ⟨-, rfl⟩ := h
              exact hs
          | cons s rest =>
              simp only [exec] at h
              cases h1 : exec f (RCmd.cUpdate s) st with
              | none => simp [h1] at h
              | some r =>
                  obtain ⟨w1, st1⟩ := r
                  simp only [h1] at h
                  exact ih _ _ _ _ (ih _ _ _ _ hs h1) h
      | cSet i w =>
          simp only [exec] at h
          cases hk : (getN st i).kind with
          | comp e cv cb => simp [hk] at h
          | eff e r d => simp [hk] at h
          | sig u =>
              simp only [hk] at h
              by_cases heqv : objectIs u w = true
              · rw [if_pos heqv] at h
                simp only [Option.some.injEq, Prod.mk.injEq] at h
                obtain ⟨-, rfl⟩ := h
                exact hs
              · rw [if_neg heqv] at h
                have hsym1 : Sym (modifyN st i fun n =>
                    { n with kind := NodeKind.sig w, stale := false }) :=
                  sym_modify_flags (fun n => ⟨rfl, rfl⟩) hs
                by_cases hbd : (modifyN st i fun n =>
                    { n with kind := NodeKind.sig w, stale := false }).batchDepth > 0
                · rw [if_pos hbd] at h
                  simp only [Option.some.injEq, Prod.mk.injEq] at h
                  obtain ⟨-, rfl⟩ := h
                  exact hsym1
                · rw [if_neg hbd] at h
                  exact ih _ _ _ _ hsym1 h

lemma flushB_sym (f : Nat) (st st' : RState) (hs : Sym st) (h : flushB f st = some st') :
    Sym st' := by
  unfold flushB at h
  split at h
  · simp only [Option.some.injEq] at h
    subst h
    exact hs
  · rw [Option.map_eq_some'] at h
    obtain ⟨⟨w, stx⟩, hx, rfl⟩ := h
    refine exec_sym f _ _ _ _ ?_ hx
    exact sym_of_edges (fun j => collectPending_edges st.batched st [] j) hs

lemma runTop_sym_all : ∀ f : Nat,
    (∀ (op : TopOp) (st st' : RState), Sym st → runTop f op st = some st' → Sym st')
    ∧ (∀ (ops : List TopOp) (st st' : RState), Sym st → runTops f ops st = some st' → Sym st') := by
  intro f
  induction f with
  | zero =>
      constructor
      · intro op st st' _ h
        simp [runTop] at h
      · intro ops st st' _ h
        simp [runTops] at h
  | succ f ih =>
      constructor
      · intro op st st' hs h
        cases op with
        | tset i v =>
            simp only [runTop] at h
            rw [Option.map_eq_some'] at h
            obtain ⟨⟨w, stx⟩, hx, rfl⟩ := h
            exact exec_sym f _ _ _ _ hs hx
        | tget i =>
            simp only [runTop] at h
            rw [Option.map_eq_some'] at h
            obtain ⟨⟨w, stx⟩, hx, rfl⟩ := h
            exact exec_sym f _ _ _ _ hs hx
        | teffInit i =>
            simp only [runTop] at h
            rw [Option.map_eq_some'] at h
            obtain ⟨⟨w, stx⟩, hx, rfl⟩ := h
            exact exec_sym f _ _ _ _ hs hx
        | tbatch ops =>
            simp only [runTop] at h
            cases h1 : runTops f ops { st with batchDepth := st.batchDepth + 1 } with
            | none => simp [h1] at h
            | some st2 =>
                simp only [h1] at h
                have hsym2 : Sym st2 :=
                  ih.2 ops { st with batchDepth := st.batchDepth + 1 } st2 hs h1
                split at h
                · exact flushB_sym f { st2 with batchDepth := st2.batchDepth - 1 } st' hsym2 h
                · simp only [Option.some.injEq] at h
                  subst h
                  exact hsym2
      · intro ops st st' hs h
        cases ops with
        | nil =>
            simp only [runTops, Option.some.injEq] at h
            subst h
            exact hs
        | cons op rest =>
            simp only [runTops] at h
            cases h1 : runTop f op st with
            | none => simp [h1] at h
            | some st1 =>
                simp only [h1] at h
                exact ih.2 rest st1 st' (ih.1 op st st1 hs h1) h

/-- The two-node graph of the idempotence scenario satisfies the symmetry
invariant (all edge sets start empty). -/
lemma idem0_sym : Sym idem0 := by
  intro a b hb
  by_cases h0 : a = 0
  · subst h0
    simp [idem0, getN, mkNode] at hb
  · by_cases h1 : a = 1
    · subst h1
      simp [idem0, getN, h0, mkNode] at hb
    · simp [idem0, getN, h0, h1, mkNode] at hb

/-- C8 (amended). The source maintains the symmetry direction stated by the
spec — whenever A's dependency set contains B, B's subscriber set contains A
— across every top-level reactive operation of the evaluator: signal get and
set, computed get (including recomputation), effect construction/run,
update/notify, and batch (with its exit flush). `dispose` is excluded: it
clears the disposed node's subscriber set without removing the node from its
subscribers' dependency sets, breaking the invariant
(see `c8_counterexample`). -/
theorem c8_dep_sub_symmetry (f : Nat) (op : TopOp) (st st' : RState)
    (hs : Sym st) (h : runTop f op st = some st') : Sym st' :=
  (runTop_sym_all f).1 op st st' hs h

/-- Witness for `c8_dep_sub_symmetry`: the concrete effect-construction run
on the two-node graph completes and preserves symmetry. -/
theorem c8_dep_sub_symmetry_witness :
    (runTop 32 (TopOp.teffInit 1) idem0).isSome = true
    ∧ Sym idem0
    ∧ (runTop 32 (TopOp.teffInit 1) idem0).elim True Sym := by
  refine ⟨by decide, idem0_sym, ?_⟩
  cases heq : runTop 32 (TopOp.teffInit 1) idem0 with
  | none => trivial
  | some stx => exact c8_dep_sub_symmetry 32 (TopOp.teffInit 1) idem0 stx idem0_sym heq

/-- C8 counterexample. After the effect (node 1) subscribes to the signal
(node 0), `dispose()` of the signal leaves node 0 in the effect's dependency
set while the signal's subscriber set no longer contains the effect: the
symmetry claimed to hold after dispose is violated. -/
theorem c8_counterexample :
    disposeCex.map (fun st => (decide (0 ∈ (getN st 1).deps), decide (1 ∈ (getN st 0).subs)))
      = some (true, false) := by decide

end TX2
